import Mathlib

/-!
Verification of the sidetone audio relay (`src/main.rs`).

The program bridges a capture callback and a render callback through a
bounded FIFO channel (`std::sync::mpsc::sync_channel(BUFFER_SIZE)`).
Samples are `f32` values that the program only moves (it never performs
arithmetic on them, the only literal written is `0.0`), so we model a
sample as a rational number: value identity and the zero sample are all
that the relay logic observes, and `ℚ` keeps every definition executable
and every equality decidable.

The channel is modelled as the list of samples currently buffered, oldest
first.  `try_send` appends when the buffer holds fewer than `cap` samples
and rejects otherwise; `try_recv` removes the head.  This is the
sequential (single-producer / single-consumer, interleaved-calls)
semantics of `sync_channel`.
-/

/-- A single audio sample.  The program never computes with samples, it only
moves them, so an exact carrier is a faithful model of `f32` here. -/
abbrev Sample : Type := ℚ

/-- Model of `sender.try_send(s)` on a `sync_channel` with capacity `cap`:
append if there is room, otherwise reject.  Returns the new buffer and
whether the send was accepted. -/
def trySend (cap : Nat) (buf : List Sample) (s : Sample) : List Sample × Bool :=
  if buf.length < cap then (buf ++ [s], true) else (buf, false)

/-- Model of `receiver.try_recv()`: take the oldest buffered sample. -/
def tryRecv (buf : List Sample) : Option Sample × List Sample :=
  match buf with
  | [] => (none, [])
  | s :: rest => (some s, rest)

/-- Model of `input_data_fn` (src/main.rs lines 92-102): for each sample of
the callback's `data` slice, attempt `try_send`; a rejected send sets the
`output_fell_behind` flag but the loop continues over the whole batch.
Returns the channel buffer after the call, the flag, and the number of
`try_send` attempts performed (one per sample of the batch). -/
def input_data_fn (cap : Nat) (buf : List Sample) : List Sample → List Sample × Bool × Nat
  | [] => (buf, false, 0)
  | s :: rest =>
    let r1 := trySend cap buf s
    let r2 := input_data_fn cap r1.1 rest
    (r2.1, (!r1.2 || r2.2.1), r2.2.2 + 1)

/-- Fuel-indexed worker for `chunksMut`.  With `0 < n` and fuel at least the
length of the list it splits the list into consecutive chunks of size `n`,
the last one possibly shorter, exactly like Rust's `slice::chunks_mut`. -/
def chunksMutAux (n : Nat) : Nat → List Sample → List (List Sample)
  | 0, _ => []
  | _ + 1, [] => []
  | fuel + 1, x :: xs => (x :: xs).take n :: chunksMutAux n fuel ((x :: xs).drop n)

/-- Model of `data.chunks_mut(n)`: consecutive chunks of size `n`, last chunk
possibly shorter, no empty chunks (meaningful for `0 < n`, as in Rust where
`chunks_mut(0)` panics). -/
def chunksMut (n : Nat) (xs : List Sample) : List (List Sample) :=
  chunksMutAux n xs.length xs

/-- The per-frame loop body of `output_data_fn`: for each frame (chunk) of
the output buffer, one `try_recv`; on success every slot of the frame is
overwritten with the received sample; on failure the frame is left exactly
as it was and the `input_fell_behind` flag is set.  Returns the channel
buffer after the call, the list of resulting frames, and the flag. -/
def outputChunks : List Sample → List (List Sample) → List Sample × List (List Sample) × Bool
  | buf, [] => (buf, [], false)
  | buf, chunk :: rest =>
    match tryRecv buf with
    | (some s, buf1) =>
      let r := outputChunks buf1 rest
      (r.1, List.replicate chunk.length s :: r.2.1, r.2.2)
    | (none, buf1) =>
      let r := outputChunks buf1 rest
      (r.1, chunk :: r.2.1, true)

/-- Model of `output_data_fn` (src/main.rs lines 104-118): split the output
buffer (with its prior contents) into frames of `channels` samples and run
the per-frame loop.  Returns the channel buffer after the call, the output
buffer contents after the call, and the `input_fell_behind` flag. -/
def output_data_fn (channels : Nat) (buf : List Sample) (data : List Sample) :
    List Sample × List Sample × Bool :=
  let r := outputChunks buf (chunksMut channels data)
  (r.1, r.2.1.flatten, r.2.2)

/-- Closed form of the frames produced by `outputChunks`: the i-th frame is
replaced by `replicate` of the i-th buffered sample while samples last, and
kept unchanged afterwards. -/
def renderOut : List Sample → List (List Sample) → List (List Sample)
  | _, [] => []
  | [], chunk :: rest => chunk :: renderOut [] rest
  | s :: b, chunk :: rest => List.replicate chunk.length s :: renderOut b rest

/-- `INITIAL_LATENCY` is the constant `Duration::from_millis(1000)`;
`as_secs()` on it yields 1. -/
def INITIAL_LATENCY_SECS : Nat := 1

/-- The constant capacity passed to `sync_channel` (src/main.rs line 12). -/
def BUFFER_SIZE : Nat := 550

/-- Model of the pre-fill loop `for _ in 0..n { sender.try_send(0.0).ok(); }`
(src/main.rs lines 88-90): `n` sequential pushes of the zero sample into a
channel of capacity `cap`, every rejection silently discarded. -/
def prefill (cap : Nat) : Nat → List Sample
  | 0 => []
  | n + 1 => (trySend cap (prefill cap n) 0).1

/-- The state `main` has built once the channel exists and pre-fill is done. -/
structure MainState where
  capacity : Nat
  buf : List Sample
  channels : Nat
deriving DecidableEq

/-- The error message of the sample-rate guard in `main`. -/
def sampleRateMismatchMsg : String :=
  "The sampling frequency of the input device must be the same as the sampling frequency of the output device"

/-- Model of the startup path of `main` (src/main.rs lines 77-90) after the
device configs are known: the only configuration check is the sample-rate
comparison; then `latency_frames = INITIAL_LATENCY.as_secs() as f32 *
output_rate as f32` and `latency_samples = latency_frames as usize *
output_channels` (exact in f32 for every real sample rate, modelled as the
exact product), the channel is created with capacity `BUFFER_SIZE`, and the
pre-fill loop runs.  `inputChannels` is never examined, as in the source. -/
def mainSetup (inputRate outputRate inputChannels outputChannels : Nat) :
    Except String MainState :=
  if inputRate ≠ outputRate then
    Except.error sampleRateMismatchMsg
  else
    let latency_frames := INITIAL_LATENCY_SECS * outputRate
    let latency_samples := latency_frames * outputChannels
    Except.ok ⟨BUFFER_SIZE, prefill BUFFER_SIZE latency_samples, outputChannels⟩

/-- `n` consecutive `try_recv` attempts on the channel: the render side's
pops during one callback, stripped of the copy into the output buffer.
Returns the channel buffer afterwards and the successfully popped samples
in pop order. -/
def popN : List Sample → Nat → List Sample × List Sample
  | buf, 0 => (buf, [])
  | buf, n + 1 =>
    match tryRecv buf with
    | (some s, buf1) =>
      let r := popN buf1 n
      (r.1, s :: r.2)
    | (none, buf1) =>
      let r := popN buf1 n
      (r.1, r.2)

/-- One relay operation: a capture callback with a batch of samples, or a
render callback performing a given number of frame pops. -/
inductive Op where
  | feed (batch : List Sample)
  | drain (frames : Nat)
deriving DecidableEq

/-- Run a sequence of capture/render callbacks against the channel, starting
from buffer `buf`.  Returns the final buffer and the concatenation of all
samples successfully popped by the render side, in pop order. -/
def runOps (cap : Nat) : List Sample → List Op → List Sample × List Sample
  | buf, [] => (buf, [])
  | buf, Op.feed batch :: rest => runOps cap (input_data_fn cap buf batch).1 rest
  | buf, Op.drain n :: rest =>
    let p := popN buf n
    let r := runOps cap p.1 rest
    (r.1, p.2 ++ r.2)

/-- All samples offered by the capture side over a run, in push order. -/
def feeds : List Op → List Sample
  | [] => []
  | Op.feed batch :: rest => batch ++ feeds rest
  | Op.drain _ :: rest => feeds rest

/-- The side condition of the FIFO claim, checked per call: starting from
fill level `fill`, the cumulative number of pushed samples minus the
cumulative number of (successfully) popped samples never exceeds `cap`.
`fill` tracks pushed-minus-popped; a drain of `n` frames pops
`min n fill` samples, i.e. leaves `fill - n` in ℕ. -/
def noExceedB (cap : Nat) : Nat → List Op → Bool
  | _, [] => true
  | fill, Op.feed batch :: rest =>
    decide (fill + batch.length ≤ cap) && noExceedB cap (fill + batch.length) rest
  | fill, Op.drain n :: rest => noExceedB cap (fill - n) rest

/-! ### Basic lemmas about the channel operations -/

lemma input_data_fn_spec (cap : Nat) :
    ∀ (batch buf : List Sample), buf.length ≤ cap →
    input_data_fn cap buf batch =
      (buf ++ batch.take (cap - buf.length),
       decide (cap < buf.length + batch.length), batch.length) := by
  intro batch
  induction batch with
  | nil =>
    intro buf h
    simp [input_data_fn, Nat.not_lt.mpr h]
  | cons s rest ih =>
    intro buf h
    by_cases hlt : buf.length < cap
    · have h1 : (buf ++ [s]).length ≤ cap := by
        simp only [List.length_append, List.length_cons, List.length_nil]
        omega
      have hk : cap - buf.length = (cap - (buf.length + 1)) + 1 := by omega
      simp only [input_data_fn, trySend, if_pos hlt, ih (buf ++ [s]) h1]
      refine Prod.ext ?_ (Prod.ext ?_ rfl)
      · simp [hk, List.take_succ_cons, List.append_assoc]
      · simp only [Bool.not_true, Bool.false_or]
        rw [decide_eq_decide]
        simp only [List.length_append, List.length_cons, List.length_nil]
        omega
    · have heq : buf.length = cap := by omega
      simp only [input_data_fn, trySend, if_neg hlt, ih buf h]
      refine Prod.ext ?_ (Prod.ext ?_ rfl)
      · simp [heq]
      · simp only [Bool.not_false, Bool.true_or]
        symm
        rw [decide_eq_true_eq]
        simp only [List.length_cons]
        omega

lemma popN_spec : ∀ (n : Nat) (buf : List Sample), popN buf n = (buf.drop n, buf.take n) := by
  intro n
  induction n with
  | zero => intro buf; simp [popN]
  | succ n ih =>
    intro buf
    cases buf with
    | nil => simp [popN, tryRecv, ih]
    | cons s b => simp [popN, tryRecv, ih]

lemma outputChunks_spec :
    ∀ (chunks : List (List Sample)) (buf : List Sample),
    outputChunks buf chunks =
      (buf.drop chunks.length, renderOut buf chunks,
       decide (buf.length < chunks.length)) := by
  intro chunks
  induction chunks with
  | nil => intro buf; simp [outputChunks, renderOut]
  | cons chunk rest ih =>
    intro buf
    cases buf with
    | nil =>
      simp [outputChunks, tryRecv, renderOut, ih]
    | cons s b =>
      simp only [outputChunks, tryRecv, renderOut, ih b]
      refine Prod.ext ?_ (Prod.ext rfl ?_)
      · simp [List.drop_succ_cons]
      · simp [Nat.succ_lt_succ_iff]

/-! ### Lemmas about `chunksMut` -/

lemma chunksMutAux_fuel (n : Nat) (hn : 0 < n) :
    ∀ (fuel1 : Nat) (fuel2 : Nat) (xs : List Sample), xs.length ≤ fuel1 → xs.length ≤ fuel2 →
    chunksMutAux n fuel1 xs = chunksMutAux n fuel2 xs := by
  intro fuel1
  induction fuel1 with
  | zero =>
    intro fuel2 xs h1 h2
    have hx : xs = [] := List.length_eq_zero.mp (Nat.le_zero.mp h1)
    subst hx
    cases fuel2 <;> simp [chunksMutAux]
  | succ f ih =>
    intro fuel2 xs h1 h2
    cases xs with
    | nil => cases fuel2 <;> simp [chunksMutAux]
    | cons x t =>
      cases fuel2 with
      | zero => simp at h2
      | succ f2 =>
        simp only [chunksMutAux]
        congr 1
        apply ih
        · simp only [List.length_drop, List.length_cons]
          simp only [List.length_cons] at h1
          omega
        · simp only [List.length_drop, List.length_cons]
          simp only [List.length_cons] at h2
          omega

lemma chunksMut_cons (n : Nat) (hn : 0 < n) (x : Sample) (xs : List Sample) :
    chunksMut n (x :: xs) = (x :: xs).take n :: chunksMut n ((x :: xs).drop n) := by
  show chunksMutAux n (x :: xs).length (x :: xs) = _
  simp only [List.length_cons, chunksMutAux]
  congr 1
  apply chunksMutAux_fuel n hn
  · simp only [List.length_drop, List.length_cons]
    omega
  · exact Nat.le_refl _

lemma chunksMut_flatten_aux (n : Nat) (hn : 0 < n) :
    ∀ (m : Nat) (xs : List Sample), xs.length ≤ m → (chunksMut n xs).flatten = xs := by
  intro m
  induction m with
  | zero =>
    intro xs h
    have hx : xs = [] := List.length_eq_zero.mp (Nat.le_zero.mp h)
    subst hx
    rfl
  | succ m ih =>
    intro xs h
    cases xs with
    | nil => rfl
    | cons x t =>
      rw [chunksMut_cons n hn, List.flatten_cons,
        ih ((x :: t).drop n)
          (by simp only [List.length_drop, List.length_cons] at h ⊢; omega)]
      exact List.take_append_drop n (x :: t)

lemma chunksMut_flatten (n : Nat) (hn : 0 < n) (xs : List Sample) :
    (chunksMut n xs).flatten = xs :=
  chunksMut_flatten_aux n hn xs.length xs (Nat.le_refl _)

lemma chunksMut_length_aux (n : Nat) (hn : 0 < n) :
    ∀ (m : Nat) (xs : List Sample), xs.length ≤ m →
    (chunksMut n xs).length = (xs.length + n - 1) / n := by
  intro m
  induction m with
  | zero =>
    intro xs h
    have hx : xs = [] := List.length_eq_zero.mp (Nat.le_zero.mp h)
    subst hx
    simp [chunksMut, chunksMutAux, Nat.div_eq_of_lt (by omega : n - 1 < n)]
  | succ m ih =>
    intro xs h
    cases xs with
    | nil => simp [chunksMut, chunksMutAux, Nat.div_eq_of_lt (by omega : n - 1 < n)]
    | cons x t =>
      rw [chunksMut_cons n hn, List.length_cons,
        ih ((x :: t).drop n)
          (by simp only [List.length_drop, List.length_cons] at h ⊢; omega)]
      simp only [List.length_drop, List.length_cons]
      by_cases hle : t.length + 1 ≤ n
      · have e0 : t.length + 1 - n = 0 := by omega
        have e1 : 0 + n - 1 = n - 1 := by omega
        have e2 : t.length + 1 + n - 1 = t.length + n := by omega
        rw [e0, e1, e2, Nat.div_eq_of_lt (by omega : n - 1 < n)]
        symm
        exact Nat.div_eq_of_lt_le (by omega) (by omega)
      · have e1 : t.length + 1 - n + n - 1 = t.length := by omega
        have e2 : t.length + 1 + n - 1 = t.length + n := by omega
        rw [e1, e2, Nat.add_div_right _ hn]

lemma chunksMut_length (n : Nat) (hn : 0 < n) (xs : List Sample) :
    (chunksMut n xs).length = (xs.length + n - 1) / n :=
  chunksMut_length_aux n hn xs.length xs (Nat.le_refl _)

lemma chunksMut_ne_nil_aux (n : Nat) (hn : 0 < n) :
    ∀ (m : Nat) (xs : List Sample), xs.length ≤ m →
    ∀ c ∈ chunksMut n xs, c ≠ [] := by
  intro m
  induction m with
  | zero =>
    intro xs h
    have hx : xs = [] := List.length_eq_zero.mp (Nat.le_zero.mp h)
    subst hx
    intro c hc
    simp [chunksMut, chunksMutAux] at hc
  | succ m ih =>
    intro xs h
    cases xs with
    | nil => intro c hc; simp [chunksMut, chunksMutAux] at hc
    | cons x t =>
      rw [chunksMut_cons n hn]
      intro c hc
      rcases List.mem_cons.mp hc with hc1 | hc2
      · subst hc1
        cases n with
        | zero => omega
        | succ k => simp [List.take_succ_cons]
      · exact ih ((x :: t).drop n)
          (by simp only [List.length_drop, List.length_cons] at h ⊢; omega) c hc2

lemma chunksMut_ne_nil (n : Nat) (hn : 0 < n) (xs : List Sample) :
    ∀ c ∈ chunksMut n xs, c ≠ [] :=
  chunksMut_ne_nil_aux n hn xs.length xs (Nat.le_refl _)

/-! ### Lemmas about `renderOut`, the pre-fill loop and `mainSetup` -/

lemma renderOut_nil_buf : ∀ (chunks : List (List Sample)), renderOut [] chunks = chunks := by
  intro chunks
  induction chunks with
  | nil => rfl
  | cons c rest ih => simp [renderOut, ih]

lemma renderOut_flatten_length :
    ∀ (chunks : List (List Sample)) (buf : List Sample),
    (renderOut buf chunks).flatten.length = chunks.flatten.length := by
  intro chunks
  induction chunks with
  | nil => intro buf; cases buf <;> rfl
  | cons c rest ih =>
    intro buf
    cases buf with
    | nil => simp [renderOut, ih []]
    | cons s b => simp [renderOut, ih b]

lemma renderOut_drop :
    ∀ (chunks : List (List Sample)) (buf : List Sample),
    (renderOut buf chunks).drop buf.length = chunks.drop buf.length := by
  intro chunks
  induction chunks with
  | nil => intro buf; cases buf <;> simp [renderOut]
  | cons c rest ih =>
    intro buf
    cases buf with
    | nil => simp [renderOut_nil_buf]
    | cons s b =>
      simp only [renderOut, List.length_cons, List.drop_succ_cons]
      exact ih b

lemma renderOut_take_zero :
    ∀ (chunks : List (List Sample)) (k : Nat), (∀ c ∈ chunks, c ≠ []) →
    ∀ x ∈ (renderOut (List.replicate k 0) chunks).flatten.take k, x = 0 := by
  intro chunks
  induction chunks with
  | nil =>
    intro k _ x hx
    simp [renderOut] at hx
  | cons c rest ih =>
    intro k hne x hx
    cases k with
    | zero => simp at hx
    | succ k =>
      rw [List.replicate_succ] at hx
      simp only [renderOut, List.flatten_cons] at hx
      rw [List.take_append_eq_append_take] at hx
      rcases List.mem_append.mp hx with h1 | h2
      · exact List.eq_of_mem_replicate (List.take_subset _ _ h1)
      · have hclen : 1 ≤ c.length := by
          have := hne c (List.mem_cons_self c rest)
          cases c with
          | nil => simp at this
          | cons a t => simp
        have hsub : k + 1 - (List.replicate c.length (0 : Sample)).length ≤ k := by
          simp only [List.length_replicate]
          omega
        have hmem : x ∈ (renderOut (List.replicate k 0) rest).flatten.take k := by
          have h3 : (renderOut (List.replicate k 0) rest).flatten.take
              (k + 1 - (List.replicate c.length (0 : Sample)).length) =
              ((renderOut (List.replicate k 0) rest).flatten.take k).take
              (k + 1 - (List.replicate c.length (0 : Sample)).length) := by
            rw [List.take_take, Nat.min_eq_left hsub]
          rw [h3] at h2
          exact List.take_subset _ _ h2
        exact ih k (fun c hc => hne c (List.mem_cons_of_mem _ hc)) x hmem

lemma prefill_spec (cap : Nat) : ∀ (n : Nat), prefill cap n = List.replicate (min n cap) 0 := by
  intro n
  induction n with
  | zero => simp [prefill]
  | succ n ih =>
    rw [prefill, ih]
    unfold trySend
    by_cases hlt : n < cap
    · rw [if_pos (by simp [List.length_replicate]; omega)]
      show List.replicate (min n cap) (0 : Sample) ++ [0] = List.replicate (min (n + 1) cap) 0
      rw [Nat.min_eq_left (by omega : n ≤ cap), Nat.min_eq_left (by omega : n + 1 ≤ cap)]
      exact (List.replicate_succ' n 0).symm
    · rw [if_neg (by simp [List.length_replicate]; omega)]
      show List.replicate (min n cap) (0 : Sample) = List.replicate (min (n + 1) cap) 0
      congr 1
      omega

lemma mainSetup_ok (r iC oC : Nat) :
    mainSetup r r iC oC =
      Except.ok ⟨BUFFER_SIZE, prefill BUFFER_SIZE (INITIAL_LATENCY_SECS * r * oC), oC⟩ := by
  simp [mainSetup]

lemma input_data_fn_full (cap : Nat) (buf batch : List Sample)
    (h : buf.length + batch.length ≤ cap) :
    (input_data_fn cap buf batch).1 = buf ++ batch := by
  rw [input_data_fn_spec cap batch buf (by omega)]
  show buf ++ batch.take (cap - buf.length) = buf ++ batch
  rw [List.take_of_length_le (by omega)]

lemma runOps_fifo_aux (cap : Nat) :
    ∀ (ops : List Op) (buf : List Sample), noExceedB cap buf.length ops = true →
    (runOps cap buf ops).2 ++ (runOps cap buf ops).1 = buf ++ feeds ops := by
  intro ops
  induction ops with
  | nil => intro buf _; simp [runOps, feeds]
  | cons op rest ih =>
    intro buf h
    cases op with
    | feed batch =>
      simp only [noExceedB, Bool.and_eq_true, decide_eq_true_eq] at h
      obtain ⟨h1, h2⟩ := h
      have hfull : (input_data_fn cap buf batch).1 = buf ++ batch :=
        input_data_fn_full cap buf batch h1
      have h2' : noExceedB cap (buf ++ batch).length rest = true := by
        rw [List.length_append]
        exact h2
      simp only [runOps, feeds, hfull]
      rw [ih (buf ++ batch) h2', List.append_assoc]
    | drain n =>
      simp only [noExceedB] at h
      have h' : noExceedB cap (buf.drop n).length rest = true := by
        rw [List.length_drop]
        exact h
      simp only [runOps, feeds, popN_spec]
      rw [List.append_assoc, ih (buf.drop n) h', ← List.append_assoc,
        List.take_append_drop]

/-! ### The claims -/

/-- Claim C1: for every sequence of feed/drain calls in which the cumulative
number of pushed samples minus the cumulative number of popped samples never
exceeds the channel capacity, the samples popped by the render side are
exactly an initial segment of the samples pushed by the capture side, in
FIFO order: popped followed by what is still buffered reconstructs the
pushed sequence, so nothing is lost or reordered. -/
theorem c1_fifo_no_loss (cap : Nat) (ops : List Op)
    (h : noExceedB cap 0 ops = true) :
    (runOps cap [] ops).2 ++ (runOps cap [] ops).1 = feeds ops := by
  have hb : noExceedB cap (List.length ([] : List Sample)) ops = true := h
  have := runOps_fifo_aux cap ops [] hb
  simpa using this

/-- Witness for C1 at a concrete trace of two feeds and two drains on a
channel of capacity 2. -/
theorem c1_fifo_no_loss_witness :
    noExceedB 2 0 [Op.feed [1, 2], Op.drain 1, Op.feed [3], Op.drain 2] = true ∧
    (runOps 2 [] [Op.feed [1, 2], Op.drain 1, Op.feed [3], Op.drain 2]).2 ++
      (runOps 2 [] [Op.feed [1, 2], Op.drain 1, Op.feed [3], Op.drain 2]).1 =
      feeds [Op.feed [1, 2], Op.drain 1, Op.feed [3], Op.drain 2] :=
  ⟨by decide, c1_fifo_no_loss 2 _ (by decide)⟩

/-- Claim C2 counterexample: with negotiated sample rate 48000 and 2
channels, the claim predicts a capacity of round(1 * 48000) * 2 = 96000
sample slots, but the channel is constructed with the constant capacity
550. -/
theorem c2_capacity_counterexample :
    Except.map MainState.capacity (mainSetup 48000 48000 2 2) = Except.ok 550 ∧
    (550 : Nat) ≠ INITIAL_LATENCY_SECS * 48000 * 2 := by
  constructor
  · rw [mainSetup_ok]
    rfl
  · decide

/-- Claim C2 amended: the relay's capacity is the fixed constant
`BUFFER_SIZE = 550`, independent of the configured latency, the sample rate
and the channel count. -/
theorem c2_capacity_amended (iR oR iC oC : Nat) (s : MainState)
    (h : mainSetup iR oR iC oC = Except.ok s) : s.capacity = BUFFER_SIZE := by
  by_cases he : iR = oR
  · subst he
    rw [mainSetup_ok] at h
    cases h
    rfl
  · rw [mainSetup, if_pos he] at h
    cases h

/-- Witness for the amended C2 at rate 1 and channel count 1. -/
theorem c2_capacity_amended_witness :
    mainSetup 1 1 1 1 = Except.ok ⟨550, [0], 1⟩ ∧
    (⟨550, [0], 1⟩ : MainState).capacity = BUFFER_SIZE :=
  ⟨by rfl, c2_capacity_amended 1 1 1 1 ⟨550, [0], 1⟩ (by rfl)⟩

/-- Claim C3 counterexample: with an empty relay and an output buffer whose
prior contents are the single sample 1, the render callback leaves 1 in
place instead of substituting silence, so the result is not the claimed
silence padding. -/
theorem c3_drain_counterexample :
    (output_data_fn 1 [] [1]).2.1 = [1] ∧
    (output_data_fn 1 [] [1]).2.1 ≠ [0] := by decide

/-- Claim C3 amended: a drain always returns exactly as many samples as the
output buffer holds (never short), but a frame whose pop fails retains its
prior buffer contents instead of being overwritten with the silence value
0.0. -/
theorem c3_drain_amended (channels : Nat) (buf data : List Sample)
    (h : 0 < channels) :
    (output_data_fn channels buf data).2.1.length = data.length ∧
    (outputChunks buf (chunksMut channels data)).2.1.drop buf.length =
      (chunksMut channels data).drop buf.length := by
  constructor
  · show ((outputChunks buf (chunksMut channels data)).2.1.flatten).length = _
    rw [outputChunks_spec]
    show (renderOut buf (chunksMut channels data)).flatten.length = data.length
    rw [renderOut_flatten_length]
    rw [chunksMut_flatten channels h]
  · rw [outputChunks_spec]
    exact renderOut_drop _ buf

/-- Witness for the amended C3 with 2 channels, an empty relay and a
3-sample output buffer. -/
theorem c3_drain_amended_witness :
    (output_data_fn 2 [] [7, 8, 9]).2.1.length = ([7, 8, 9] : List Sample).length ∧
    (outputChunks [] (chunksMut 2 [7, 8, 9])).2.1.drop (List.length ([] : List Sample)) =
      (chunksMut 2 [7, 8, 9]).drop (List.length ([] : List Sample)) :=
  c3_drain_amended 2 [] [7, 8, 9] (by decide)

set_option maxRecDepth 4000 in
/-- Claim C4 counterexample: at sample rate 551 and 1 channel the claim
predicts that the first round(1 * 551) * 1 = 551 drained samples are all
silence, but the pre-fill is capped at the constant capacity 550, the 551st
pop fails, and the output buffer's prior contents (here the sample 1)
survive among the first 551 drained samples. -/
theorem c4_initial_silence_counterexample :
    mainSetup 551 551 1 1 = Except.ok ⟨550, List.replicate 550 0, 1⟩ ∧
    ¬ (∀ x ∈ (output_data_fn 1 (List.replicate 550 0)
        (List.replicate 551 1)).2.1.take (INITIAL_LATENCY_SECS * 551 * 1), x = 0) := by
  constructor
  · rw [mainSetup_ok, prefill_spec]
    rfl
  · decide

/-- Claim C4 amended: before any feed, the first
min(round(L·R)·C, BUFFER_SIZE) samples produced by drain are silence (the
pre-fill holds only min(round(L·R)·C, BUFFER_SIZE) zeros, since the channel
capacity is the constant BUFFER_SIZE); beyond them pops fail and the output
retains its prior contents. -/
theorem c4_initial_silence_amended (R C : Nat) (data : List Sample)
    (hC : 0 < C) (s : MainState) (h : mainSetup R R C C = Except.ok s) :
    ∀ x ∈ (output_data_fn C s.buf data).2.1.take
        (min (INITIAL_LATENCY_SECS * R * C) BUFFER_SIZE), x = 0 := by
  rw [mainSetup_ok] at h
  cases h
  show ∀ x ∈ ((outputChunks (prefill BUFFER_SIZE (INITIAL_LATENCY_SECS * R * C))
      (chunksMut C data)).2.1.flatten).take
      (min (INITIAL_LATENCY_SECS * R * C) BUFFER_SIZE), x = 0
  rw [prefill_spec, outputChunks_spec]
  exact renderOut_take_zero (chunksMut C data)
    (min (INITIAL_LATENCY_SECS * R * C) BUFFER_SIZE) (chunksMut_ne_nil C hC data)

/-- Witness for the amended C4 at rate 1, 1 channel and a one-sample output
buffer with nonzero prior contents. -/
theorem c4_initial_silence_amended_witness :
    0 < 1 ∧
    (∀ x ∈ (output_data_fn 1 (MainState.buf ⟨550, [0], 1⟩) [5]).2.1.take
        (min (INITIAL_LATENCY_SECS * 1 * 1) BUFFER_SIZE), x = 0) :=
  ⟨by decide, c4_initial_silence_amended 1 1 [5] (by decide) ⟨550, [0], 1⟩ (by rfl)⟩

/-- Claim C5 counterexample: with 2 channels, a relay holding 3 samples and
an output buffer of 4 samples, the call requests 4 samples while only 3 are
available, yet no underrun is reported, because the callback pops only once
per frame (twice here). -/
theorem c5_events_counterexample :
    (output_data_fn 2 [5, 6, 7] [9, 9, 9, 9]).2.2 = false ∧
    ([5, 6, 7] : List Sample).length < ([9, 9, 9, 9] : List Sample).length := by
  decide

/-- Claim C5 amended: a feed reports overrun iff its batch size plus the
fill level at the start of the call exceeds the capacity; a drain reports
underrun iff the number of frames in the output buffer, ⌈n/C⌉ - one pop is
attempted per frame, not per sample - exceeds the number of samples
available at the start of the call. -/
theorem c5_events_amended (cap : Nat) (bufI batch : List Sample)
    (hI : bufI.length ≤ cap) (C : Nat) (hC : 0 < C) (bufO data : List Sample) :
    ((input_data_fn cap bufI batch).2.1 = true ↔ cap < bufI.length + batch.length) ∧
    ((output_data_fn C bufO data).2.2 = true ↔
      bufO.length < (data.length + C - 1) / C) := by
  constructor
  · rw [input_data_fn_spec cap batch bufI hI]
    simp
  · show ((outputChunks bufO (chunksMut C data)).2.2 = true ↔ _)
    rw [outputChunks_spec]
    simp [chunksMut_length C hC]

/-- Witness for the amended C5: the feed half on the spec's scenario
(capacity 4, fill 2, batch of 3) and the drain half on the counterexample
input (2 channels, fill 3, 4-sample buffer, 2 frames). -/
theorem c5_events_amended_witness :
    ((input_data_fn 4 [0, 0] [1, 2, 3]).2.1 = true ↔
      4 < ([0, 0] : List Sample).length + ([1, 2, 3] : List Sample).length) ∧
    ((output_data_fn 2 [5, 6, 7] [9, 9, 9, 9]).2.2 = true ↔
      ([5, 6, 7] : List Sample).length <
        (([9, 9, 9, 9] : List Sample).length + 2 - 1) / 2) :=
  c5_events_amended 4 [0, 0] [1, 2, 3] (by decide) 2 (by decide) [5, 6, 7] [9, 9, 9, 9]

/-- Claim C6: a feed call performs one `try_send` attempt per sample of the
batch (a rejection sets the per-call flag but never halts the loop), and a
batch that partially fits leaves the channel containing the old contents
followed by exactly the prefix of the batch that fit. -/
theorem c6_partial_batch (cap : Nat) (buf batch : List Sample)
    (h : buf.length ≤ cap) :
    (input_data_fn cap buf batch).2.2 = batch.length ∧
    (input_data_fn cap buf batch).1 = buf ++ batch.take (cap - buf.length) := by
  rw [input_data_fn_spec cap batch buf h]
  exact ⟨rfl, rfl⟩

/-- Witness for C6 on the spec's scenario: capacity 4, two buffered zeros,
batch [1,2,3]; all 3 samples are attempted and the channel ends as
[0,0,1,2]. -/
theorem c6_partial_batch_witness :
    (input_data_fn 4 [0, 0] [1, 2, 3]).2.2 = ([1, 2, 3] : List Sample).length ∧
    (input_data_fn 4 [0, 0] [1, 2, 3]).1 =
      [0, 0] ++ ([1, 2, 3] : List Sample).take (4 - ([0, 0] : List Sample).length) :=
  c6_partial_batch 4 [0, 0] [1, 2, 3] (by decide)

/-- Claim C7 counterexample: with matching sample rates but 1 capture
channel against 2 render channels, startup succeeds: no channel-count check
exists in `main`, so the mismatch is not a detected configuration error. -/
theorem c7_channel_mismatch_counterexample :
    (1 : Nat) ≠ 2 ∧ (mainSetup 48000 48000 1 2).isOk = true := by
  constructor
  · decide
  · rw [mainSetup_ok]
    rfl

/-- Claim C7 amended: `main` performs no channel-count comparison at all;
whenever the sample rates match, startup succeeds and the relay is
constructed even though the capture and render channel counts differ. -/
theorem c7_channel_mismatch_amended (r iC oC : Nat) (h : iC ≠ oC) :
    (mainSetup r r iC oC).isOk = true := by
  rw [mainSetup_ok]
  rfl

/-- Witness for the amended C7 at rate 1 with channel counts 1 and 2. -/
theorem c7_channel_mismatch_amended_witness :
    (1 : Nat) ≠ 2 ∧ (mainSetup 1 1 1 2).isOk = true :=
  ⟨by decide, c7_channel_mismatch_amended 1 1 2 (by decide)⟩

/-- Claim C8: if the negotiated input sample rate differs from the output
sample rate, `main` fails with the configuration error before the channel
is created or any stream is built: the result is the bail-out error and no
`MainState` exists. -/
theorem c8_rate_mismatch (iR oR iC oC : Nat) (h : iR ≠ oR) :
    mainSetup iR oR iC oC = Except.error sampleRateMismatchMsg := by
  rw [mainSetup, if_pos h]

/-- Witness for C8 at input rate 44100 against output rate 48000. -/
theorem c8_rate_mismatch_witness :
    mainSetup 44100 48000 2 2 = Except.error sampleRateMismatchMsg :=
  c8_rate_mismatch 44100 48000 2 2 (by decide)

/-- Claim C9: the render callback pops exactly one sample from the channel
per output frame - ⌈n/C⌉ pops for an n-sample buffer with C channels, not
one pop per sample slot - and each successful pop writes its single sample
into every slot of that frame (`renderOut` replicates the popped sample
over the frame's length). -/
theorem c9_pop_per_frame (C : Nat) (hC : 0 < C) (buf data : List Sample) :
    (output_data_fn C buf data).1 = buf.drop ((data.length + C - 1) / C) ∧
    (output_data_fn C buf data).2.1 = (renderOut buf (chunksMut C data)).flatten ∧
    ((output_data_fn C buf data).2.2 = true ↔
      buf.length < (data.length + C - 1) / C) := by
  refine ⟨?_, ?_, ?_⟩
  · show (outputChunks buf (chunksMut C data)).1 = _
    rw [outputChunks_spec, chunksMut_length C hC]
  · show (outputChunks buf (chunksMut C data)).2.1.flatten = _
    rw [outputChunks_spec]
  · show ((outputChunks buf (chunksMut C data)).2.2 = true ↔ _)
    rw [outputChunks_spec]
    simp [chunksMut_length C hC]

/-- Witness for C9 with 2 channels, 2 buffered samples and a 3-sample
output buffer: 2 frames, 2 pops, each pop replicated over its frame. -/
theorem c9_pop_per_frame_witness :
    (output_data_fn 2 [1, 2] [9, 9, 9]).1 =
      ([1, 2] : List Sample).drop ((([9, 9, 9] : List Sample).length + 2 - 1) / 2) ∧
    (output_data_fn 2 [1, 2] [9, 9, 9]).2.1 =
      (renderOut [1, 2] (chunksMut 2 [9, 9, 9])).flatten ∧
    ((output_data_fn 2 [1, 2] [9, 9, 9]).2.2 = true ↔
      ([1, 2] : List Sample).length < (([9, 9, 9] : List Sample).length + 2 - 1) / 2) :=
  c9_pop_per_frame 2 (by decide) [1, 2] [9, 9, 9]

/-- Claim C10: construction never fails once the sample rates match: the
pre-fill loop discards every rejected push, so exactly
min(latency samples, BUFFER_SIZE) zeros end up enqueued and the fill level
after construction never exceeds the capacity. -/
theorem c10_prefill_bounded (r iC oC : Nat) :
    mainSetup r r iC oC =
      Except.ok ⟨BUFFER_SIZE,
        List.replicate (min (INITIAL_LATENCY_SECS * r * oC) BUFFER_SIZE) 0, oC⟩ ∧
    (List.replicate (min (INITIAL_LATENCY_SECS * r * oC) BUFFER_SIZE)
      (0 : Sample)).length ≤ BUFFER_SIZE := by
  constructor
  · rw [mainSetup_ok, prefill_spec]
  · rw [List.length_replicate]
    exact Nat.min_le_right _ _
